import Mathlib

/-!
Verification of the obun build tool (src/obun.py).

The source is a single Python file containing a manifest parser
(`Manifest.parse`), a manifest stripper (`CodeAssembler.strip_manifest`)
and a recursive directive-processing assembler (`CodeAssembler.build`).
We embed those functions shallowly over `List Char` (Python strings are
sequences of unicode code points; Lean `String.data` gives us the same
view).  Python's `str.strip()`, `str.splitlines(...)` and
`str.split(maxsplit=1)` are modelled by `pyStrip`, `splitK` / `splitN`
and `splitMax1Snd` below, following CPython's documented behaviour
(whitespace set, line-boundary set, first-token splitting).

The file system and path resolution (`(self.root / file).resolve()` and
`Path.read_text`) are modelled by a `Ctx` structure holding an arbitrary
resolution function and an association list from canonical path to file
content.  Python's unbounded recursion is modelled with explicit fuel:
`build ctx fuel` runs at most `fuel` nested include levels, and running
out of fuel is a distinguished outcome (`BuildErr.fuelOut`) that never
occurs on inputs whose include nesting is below the fuel bound.
-/

namespace Obun

/-- Python's whitespace predicate (`str.isspace`, the set stripped by
`str.strip()`): 0x09-0x0D, 0x1C-0x1F, space, NEL, NBSP, and the Unicode
space separators. -/
def pyIsSpace (c : Char) : Bool :=
  (9 ≤ c.toNat && c.toNat ≤ 13) || (28 ≤ c.toNat && c.toNat ≤ 32) ||
  c.toNat = 133 || c.toNat = 160 || c.toNat = 0x1680 ||
  (0x2000 ≤ c.toNat && c.toNat ≤ 0x200a) ||
  c.toNat = 0x2028 || c.toNat = 0x2029 || c.toNat = 0x202f ||
  c.toNat = 0x205f || c.toNat = 0x3000

/-- The line boundaries recognised by Python's `str.splitlines`:
LF, VT, FF, CR, FS, GS, RS, NEL, LINE SEPARATOR, PARAGRAPH SEPARATOR
(CR LF counts as a single boundary). -/
def isLineBreak (c : Char) : Bool :=
  c.toNat = 10 || c.toNat = 11 || c.toNat = 12 || c.toNat = 13 ||
  c.toNat = 28 || c.toNat = 29 || c.toNat = 30 || c.toNat = 133 ||
  c.toNat = 0x2028 || c.toNat = 0x2029

/-- Python `str.strip()`: remove leading and trailing whitespace. -/
def pyStrip (s : List Char) : List Char :=
  ((s.dropWhile pyIsSpace).reverse.dropWhile pyIsSpace).reverse

/-- Python `str.splitlines(keepends=True)`: split at line boundaries,
keeping the terminator on each line; `\r\n` is one boundary. -/
def splitK : List Char → List (List Char)
  | [] => []
  | c :: rest =>
    if c = '\r' then
      match rest with
      | '\n' :: rest2 => ['\r', '\n'] :: splitK rest2
      | [] => ['\r'] :: []
      | c2 :: rest2 => ['\r'] :: splitK (c2 :: rest2)
    else if isLineBreak c then
      [c] :: splitK rest
    else
      match splitK rest with
      | [] => [c] :: []
      | l :: ls => (c :: l) :: ls

/-- Python `str.splitlines()` (keepends=False): like `splitK` but the
terminators are not kept. -/
def splitN : List Char → List (List Char)
  | [] => []
  | c :: rest =>
    if c = '\r' then
      match rest with
      | '\n' :: rest2 => [] :: splitN rest2
      | [] => [] :: []
      | c2 :: rest2 => [] :: splitN (c2 :: rest2)
    else if isLineBreak c then
      [] :: splitN rest
    else
      match splitN rest with
      | [] => [c] :: []
      | l :: ls => (c :: l) :: ls

/-- Python `stripped.split(maxsplit=1)[1]`: skip leading whitespace, skip
the first whitespace-free token, skip the following whitespace run; the
(verbatim) remainder is the second list element when it is non-empty,
otherwise indexing raises (modelled as `none`). -/
def splitMax1Snd (s : List Char) : Option (List Char) :=
  let s1 := s.dropWhile pyIsSpace
  let rest := (s1.dropWhile (fun c => !pyIsSpace c)).dropWhile pyIsSpace
  if s1 = [] then none
  else if rest = [] then none
  else some rest

/-- Directive binding `INCLUDE = "#:section"`. -/
def INCLUDE : List Char := "#:section".data

/-- Directive binding `IF = "#:if"`. -/
def IF : List Char := "#:if".data

/-- Directive binding `ELSE = "#:else"`. -/
def ELSE : List Char := "#:else".data

/-- Directive binding `ENDIF = "#:endif"`. -/
def ENDIF : List Char := "#:endif".data

/-- Manifest start sentinel `MANIFEST_START = "0o ---"`. -/
def MANIFEST_START : List Char := "0o ---".data

/-- Manifest end sentinel `MANIFEST_END = "--- o0"`. -/
def MANIFEST_END : List Char := "--- o0".data

/-- The line-collection loop of `Manifest.parse`: the start sentinel
switches `inside` on (and is dropped), the end sentinel stops the scan
entirely (`break`), and lines seen while `inside` are collected. -/
def collectLines : Bool → List (List Char) → List (List Char)
  | _, [] => []
  | inside, l :: ls =>
    let st := pyStrip l
    if st = MANIFEST_START then collectLines true ls
    else if st = MANIFEST_END then []
    else if inside then l :: collectLines inside ls
    else collectLines inside ls

/-- Python dict assignment `d[k] = v`: overwrite in place when the key is
present, append otherwise (insertion order preserved). -/
def dictInsert (d : List (List Char × List Char)) (k v : List Char) :
    List (List Char × List Char) :=
  if d.any (fun kv => kv.1 = k) then
    d.map (fun kv => if kv.1 = k then (k, v) else kv)
  else d ++ [(k, v)]

/-- The key/value loop of `Manifest.parse`: each collected line containing
a colon is split at the first colon, both halves stripped, and assigned. -/
def parseKV (d : List (List Char × List Char)) :
    List (List Char) → List (List Char × List Char)
  | [] => d
  | l :: ls =>
    if l.contains ':' then
      let k := l.takeWhile (fun c => c ≠ ':')
      let v := (l.dropWhile (fun c => c ≠ ':')).tail
      parseKV (dictInsert d (pyStrip k) (pyStrip v)) ls
    else parseKV d ls

namespace Manifest

/-- `Manifest.parse(text)`: split into lines (no keepends), collect the
lines between the sentinels, and parse `key: value` pairs. -/
def parse (text : List Char) : List (List Char × List Char) :=
  parseKV [] (collectLines false (splitN text))

end Manifest

/-- The line filter of `CodeAssembler.strip_manifest`: a start-sentinel
line turns `inside` on and is dropped, an end-sentinel line turns it off
and is dropped, any other line is kept exactly when not `inside`. -/
def stripLines : Bool → List (List Char) → List (List Char)
  | _, [] => []
  | inside, l :: ls =>
    let st := pyStrip l
    if st = MANIFEST_START then stripLines true ls
    else if st = MANIFEST_END then stripLines false ls
    else if inside then stripLines inside ls
    else l :: stripLines inside ls

/-- `CodeAssembler.strip_manifest(text)`: split into lines keeping the
terminators, drop the manifest block, and rejoin. -/
def strip_manifest (text : List Char) : List Char :=
  (stripLines false (splitK text)).flatten

/-- The per-build resolution context of `CodeAssembler`: `resolve` models
`(self.root / file).resolve()` (canonicalisation of a path string under
the fixed root), `fs` models the file system keyed by canonical path
(`Path.read_text`), and `defines` is the defined-symbol set. -/
structure Ctx where
  resolve : List Char → List Char
  fs : List (List Char × List Char)
  defines : List (List Char)

/-- The failure outcomes of `CodeAssembler.build`: the two `RuntimeError`s
raised for a visited path and for unmatched directives, the
`FileNotFoundError` from `read_text`, the `IndexError` escaping from
`stripped.split(maxsplit=1)[1]`, and fuel exhaustion (an artefact of the
fuel bound standing in for Python's unbounded recursion). -/
inductive BuildErr where
  | circular (p : List Char)
  | unmatchedElse
  | unmatchedEndif
  | missingFile (p : List Char)
  | indexErr
  | fuelOut
deriving DecidableEq

/-- Look a canonical path up in the modelled file system. -/
def readFile (fs : List (List Char × List Char)) (p : List Char) :
    Option (List Char) :=
  match fs with
  | [] => none
  | kv :: rest => if kv.1 = p then some kv.2 else readFile rest p

/-- The `#:else` update of the conditional stack (`skip_stack` with the
top at the end of the list): when no frame below the top is skipping,
the top frame's boolean is inverted in place; otherwise the stack is
unchanged.  Only reached with a non-empty stack. -/
def elseStep (stack : List Bool) : List Bool :=
  if stack.dropLast.any id then stack
  else stack.dropLast ++ [!stack.getLastD false]

/-- The line loop of `CodeAssembler.build`, with the recursive call for
`#:section` abstracted as `bld` (taking and returning the visited set,
which Python mutates in place).  The loop state is the lines still to
process, the conditional stack, the output accumulated so far and the
visited set. -/
def lineLoopF (ctx : Ctx)
    (bld : List (List Char) → List Char →
      Except BuildErr (List Char × List (List Char))) :
    List (List Char) → List Bool → List Char → List (List Char) →
    Except BuildErr (List Char × List (List Char))
  | [], _, acc, visited => .ok (acc, visited)
  | line :: rest, stack, acc, visited =>
    let stripped := pyStrip line
    if INCLUDE.isPrefixOf stripped then
      if stack.any id then lineLoopF ctx bld rest stack acc visited
      else
        match splitMax1Snd stripped with
        | none => .error .indexErr
        | some incPath =>
          match bld visited incPath with
          | .error e => .error e
          | .ok (out, visited2) =>
            lineLoopF ctx bld rest stack (acc ++ out) visited2
    else if IF.isPrefixOf stripped then
      match splitMax1Snd stripped with
      | none => .error .indexErr
      | some cond =>
        lineLoopF ctx bld rest (stack ++ [!ctx.defines.contains cond])
          acc visited
    else if ELSE.isPrefixOf stripped then
      if stack.isEmpty then .error .unmatchedElse
      else lineLoopF ctx bld rest (elseStep stack) acc visited
    else if ENDIF.isPrefixOf stripped then
      if stack.isEmpty then .error .unmatchedEndif
      else lineLoopF ctx bld rest stack.dropLast acc visited
    else if stack.any id then lineLoopF ctx bld rest stack acc visited
    else lineLoopF ctx bld rest stack (acc ++ line) visited

/-- `CodeAssembler.build(file)`: resolve the path, fail if it was already
entered in this build, record it as visited, read and manifest-strip the
file, then process its lines.  `fuel` bounds the include nesting depth
(Python's recursion is unbounded); each recursive include runs with one
unit less. -/
def build (ctx : Ctx) : Nat → List (List Char) → List Char →
    Except BuildErr (List Char × List (List Char))
  | 0, _, _ => .error .fuelOut
  | fuel + 1, visited, file =>
    let p := ctx.resolve file
    if visited.contains p then .error (.circular p)
    else
      match readFile ctx.fs p with
      | none => .error (.missingFile p)
      | some text =>
        lineLoopF ctx (build ctx fuel) (splitK (strip_manifest text))
          [] [] (p :: visited)

/-- The text produced by a top-level `build` call (output component only). -/
def buildRes (ctx : Ctx) (fuel : Nat) (file : List Char) :
    Except BuildErr (List Char) :=
  (build ctx fuel [] file).map Prod.fst

/-- The orchestrator's `run_build` contract around the core: it clears the
assembler's visited set (whatever stale contents it has) before invoking
`build` on the entry file. -/
def runBuild (ctx : Ctx) (fuel : Nat) (file : List Char)
    (_staleVisited : List (List Char)) :
    Except BuildErr (List Char × List (List Char)) :=
  let cleared : List (List Char) := []
  build ctx fuel cleared file

/-- A line is classified as a directive when its stripped form begins with
one of the four reserved tokens. -/
def isDirective (l : List Char) : Bool :=
  INCLUDE.isPrefixOf (pyStrip l) || IF.isPrefixOf (pyStrip l) ||
  ELSE.isPrefixOf (pyStrip l) || ENDIF.isPrefixOf (pyStrip l)

/-- A character list free of line boundaries (the body of a line). -/
def noBrk (b : List Char) : Prop := ∀ c ∈ b, isLineBreak c = false

/-- A line as produced by `splitK` when it carries its terminator: a
boundary-free body followed by a single line break (possibly a lone CR),
or by the two-character CR LF boundary. -/
def TermLine (l : List Char) : Prop :=
  (∃ b t, l = b ++ [t] ∧ noBrk b ∧ isLineBreak t = true) ∨
  (∃ b, l = b ++ ['\r', '\n'] ∧ noBrk b)

/-- Any line `splitK` can produce: terminated, or a non-empty
boundary-free final fragment. -/
def IsLine (l : List Char) : Prop := TermLine l ∨ (noBrk l ∧ l ≠ [])

/-- A well-formed line list: every line but the last is terminated, and
the last is a line.  `splitK` output always has this shape, and it is
preserved by dropping lines. -/
def GoodList : List (List Char) → Prop
  | [] => True
  | [l] => IsLine l
  | l :: l2 :: ls => TermLine l ∧ GoodList (l2 :: ls)

/-- A line that `strip_manifest` keeps: its stripped form is neither
sentinel. -/
def Keep (l : List Char) : Prop :=
  pyStrip l ≠ MANIFEST_START ∧ pyStrip l ≠ MANIFEST_END

/-! ### Helper lemmas on prefixes and the line loop -/

theorem prefix_toAppend {s t : List Char} (h : s.isPrefixOf t = true) :
    ∃ u, t = s ++ u := by
  obtain ⟨u, hu⟩ := List.isPrefixOf_iff_prefix.mp h
  exact ⟨u, hu.symm⟩

theorem include_pf_else (u : List Char) :
    INCLUDE.isPrefixOf (ELSE ++ u) = false := rfl

theorem if_pf_else (u : List Char) : IF.isPrefixOf (ELSE ++ u) = false := rfl

theorem else_pf_else (u : List Char) : ELSE.isPrefixOf (ELSE ++ u) = true := by
  induction u with
  | nil => rfl
  | cons c cs _ => rfl

theorem include_pf_endif (u : List Char) :
    INCLUDE.isPrefixOf (ENDIF ++ u) = false := rfl

theorem if_pf_endif (u : List Char) : IF.isPrefixOf (ENDIF ++ u) = false := rfl

theorem else_pf_endif (u : List Char) :
    ELSE.isPrefixOf (ENDIF ++ u) = false := rfl

theorem endif_pf_endif (u : List Char) :
    ENDIF.isPrefixOf (ENDIF ++ u) = true := by
  induction u with
  | nil => rfl
  | cons c cs _ => rfl

theorem include_pf_if (u : List Char) : INCLUDE.isPrefixOf (IF ++ u) = false :=
  rfl

theorem if_pf_if (u : List Char) : IF.isPrefixOf (IF ++ u) = true := by
  induction u with
  | nil => rfl
  | cons c cs _ => rfl

theorem include_pf_include (u : List Char) :
    INCLUDE.isPrefixOf (INCLUDE ++ u) = true := by
  induction u with
  | nil => rfl
  | cons c cs _ => rfl

theorem lineLoopF_else_step (ctx : Ctx) (bld : List (List Char) → List Char →
      Except BuildErr (List Char × List (List Char)))
    (line : List Char) (rest : List (List Char)) (stack : List Bool)
    (acc : List Char) (visited : List (List Char))
    (h : ELSE.isPrefixOf (pyStrip line) = true) :
    lineLoopF ctx bld (line :: rest) stack acc visited =
      if stack.isEmpty then .error .unmatchedElse
      else lineLoopF ctx bld rest (elseStep stack) acc visited := by
  obtain ⟨u, hu⟩ := prefix_toAppend h
  simp only [lineLoopF, hu, include_pf_else, if_pf_else, else_pf_else,
    Bool.false_eq_true, if_false, if_true]

theorem lineLoopF_endif_step (ctx : Ctx) (bld : List (List Char) → List Char →
      Except BuildErr (List Char × List (List Char)))
    (line : List Char) (rest : List (List Char)) (stack : List Bool)
    (acc : List Char) (visited : List (List Char))
    (h : ENDIF.isPrefixOf (pyStrip line) = true) :
    lineLoopF ctx bld (line :: rest) stack acc visited =
      if stack.isEmpty then .error .unmatchedEndif
      else lineLoopF ctx bld rest stack.dropLast acc visited := by
  obtain ⟨u, hu⟩ := prefix_toAppend h
  simp only [lineLoopF, hu, include_pf_endif, if_pf_endif, else_pf_endif,
    endif_pf_endif, Bool.false_eq_true, if_false, if_true]

theorem lineLoopF_if_step (ctx : Ctx) (bld : List (List Char) → List Char →
      Except BuildErr (List Char × List (List Char)))
    (line : List Char) (rest : List (List Char)) (stack : List Bool)
    (acc : List Char) (visited : List (List Char))
    (h : IF.isPrefixOf (pyStrip line) = true) :
    lineLoopF ctx bld (line :: rest) stack acc visited =
      match splitMax1Snd (pyStrip line) with
      | none => .error .indexErr
      | some cond =>
        lineLoopF ctx bld rest (stack ++ [!ctx.defines.contains cond])
          acc visited := by
  obtain ⟨u, hu⟩ := prefix_toAppend h
  simp only [lineLoopF, hu, include_pf_if, if_pf_if,
    Bool.false_eq_true, if_false, if_true]

theorem lineLoopF_include_step (ctx : Ctx)
    (bld : List (List Char) → List Char →
      Except BuildErr (List Char × List (List Char)))
    (line : List Char) (rest : List (List Char)) (stack : List Bool)
    (acc : List Char) (visited : List (List Char))
    (h : INCLUDE.isPrefixOf (pyStrip line) = true)
    (hs : stack.any id = false) :
    lineLoopF ctx bld (line :: rest) stack acc visited =
      match splitMax1Snd (pyStrip line) with
      | none => .error .indexErr
      | some incPath =>
        match bld visited incPath with
        | .error e => .error e
        | .ok (out, visited2) =>
          lineLoopF ctx bld rest stack (acc ++ out) visited2 := by
  obtain ⟨u, hu⟩ := prefix_toAppend h
  simp only [lineLoopF, hu, include_pf_include, hs,
    Bool.false_eq_true, if_false, if_true]

/-! ### Claim theorems -/

/-- C1 (counterexample): the circular-include error is not raised "exactly
when the file is re-entered while still being processed".  In the tree
where `A` includes `B` twice and `B` is plain text, the first inclusion of
`B` completes (second conjunct: including `B` once yields its text), so at
the second `#:section B` line `B` is no longer open — yet `build` fails
with the circular-include error naming `B`, because the visited set is
never pruned when a file finishes. -/
theorem circular_fires_after_file_closed :
    buildRes ⟨id, [("A".data, "#:section B\n#:section B\n".data),
      ("B".data, "x\n".data)], []⟩ 10 "A".data =
      .error (.circular "B".data) ∧
    buildRes ⟨id, [("A".data, "#:section B\n".data),
      ("B".data, "x\n".data)], []⟩ 10 "A".data = .ok "x\n".data :=
  ⟨rfl, rfl⟩

/-- C1 (amended): `build` fails with the circular-include error naming the
offending canonical path whenever that path was entered at any earlier
point of the same build (the visited set grows monotonically and is never
pruned), which in particular covers re-entry while the file is still
open; a file `A` including `B` which includes `A` fails with this error
naming a canonical path of the cycle, and the failure produces no
output. -/
theorem circular_on_reentered_path :
    (∀ (ctx : Ctx) (fuel : Nat) (visited : List (List Char))
      (file : List Char),
      visited.contains (ctx.resolve file) = true →
      build ctx (fuel + 1) visited file =
        .error (.circular (ctx.resolve file))) ∧
    buildRes ⟨id, [("A".data, "#:section B\n".data),
      ("B".data, "#:section A\n".data)], []⟩ 10 "A".data =
      .error (.circular "A".data) := by
  refine ⟨fun ctx fuel visited file h => ?_, rfl⟩
  simp only [build, h, if_true]

/-- C1 (witness for the amended theorem): re-entering a path already in
the visited set fails with the circular error naming it. -/
theorem circular_on_reentered_path_witness :
    build ⟨id, [], []⟩ 1 ["f".data] "f".data =
      .error (.circular "f".data) :=
  circular_on_reentered_path.1 ⟨id, [], []⟩ 0 ["f".data] "f".data rfl

/-- C3: processing `#:else` on a non-empty stack only ever changes the top
frame: the frames below the top are returned unchanged; when none of them
is skipping the top boolean is inverted, and when one of them is skipping
the whole stack (top included) is unchanged; and the line loop processes
any `#:else`-prefixed line on a non-empty stack exactly by this update. -/
theorem else_touches_only_top (s : List Bool) (hne : s ≠ []) :
    (elseStep s).dropLast = s.dropLast ∧
    (s.dropLast.any id = true → elseStep s = s) ∧
    (s.dropLast.any id = false →
      elseStep s = s.dropLast ++ [!s.getLastD false]) ∧
    (∀ (ctx : Ctx) (bld : List (List Char) → List Char →
        Except BuildErr (List Char × List (List Char)))
      (line : List Char) (rest : List (List Char)) (acc : List Char)
      (visited : List (List Char)),
      ELSE.isPrefixOf (pyStrip line) = true →
      lineLoopF ctx bld (line :: rest) s acc visited =
        lineLoopF ctx bld rest (elseStep s) acc visited) := by
  refine ⟨?_, ?_, ?_, ?_⟩
  · unfold elseStep
    split
    · rfl
    · exact List.dropLast_concat
  · intro h
    unfold elseStep
    simp [h]
  · intro h
    unfold elseStep
    simp [h]
  · intro ctx bld line rest acc visited h
    rw [lineLoopF_else_step ctx bld line rest s acc visited h]
    have : s.isEmpty = false := by
      cases s with
      | nil => exact absurd rfl hne
      | cons a as => rfl
    simp [this]

/-- C3 (witness): on the two-frame stack `[false, true]` an `#:else` line
flips only the top frame. -/
theorem else_touches_only_top_witness :
    (elseStep [false, true]).dropLast = [false, true].dropLast ∧
    ([false, true].dropLast.any id = true → elseStep [false, true] = [false, true]) ∧
    ([false, true].dropLast.any id = false →
      elseStep [false, true] = [false, true].dropLast ++ [!([false, true].getLastD false)]) ∧
    (∀ (ctx : Ctx) (bld : List (List Char) → List Char →
        Except BuildErr (List Char × List (List Char)))
      (line : List Char) (rest : List (List Char)) (acc : List Char)
      (visited : List (List Char)),
      ELSE.isPrefixOf (pyStrip line) = true →
      lineLoopF ctx bld (line :: rest) [false, true] acc visited =
        lineLoopF ctx bld rest (elseStep [false, true]) acc visited) :=
  else_touches_only_top [false, true] (by decide)

/-- C6: an unterminated `#:if` is silently accepted: exhausting a file's
lines returns the accumulated output normally whatever the final
conditional stack is (first conjunct), and concretely a file whose
content opens a skipping frame that is never closed builds to the text
accumulated before the frame, the governed lines being dropped through
end-of-file (second and third conjuncts). -/
theorem unterminated_if_accepted :
    (∀ (ctx : Ctx) (bld : List (List Char) → List Char →
        Except BuildErr (List Char × List (List Char)))
      (stack : List Bool) (acc : List Char) (visited : List (List Char)),
      lineLoopF ctx bld [] stack acc visited = .ok (acc, visited)) ∧
    buildRes ⟨id, [("a".data, "keep\n#:if DEBUG\nsecret\n".data)], []⟩
      1 "a".data = .ok "keep\n".data ∧
    buildRes ⟨id, [("a".data, "keep\n#:if DEBUG\nsecret\n".data)],
      ["DEBUG".data]⟩ 1 "a".data = .ok "keep\nsecret\n".data :=
  ⟨fun _ _ _ _ _ => rfl, rfl, rfl⟩

/-- C7: a `#:else` (resp. `#:endif`) line hit with an empty conditional
stack fails with the unmatched-else (resp. unmatched-endif) error, the
error aborting the line loop; with a non-empty stack the same line
continues the loop normally, so the failure happens exactly on an empty
stack. -/
theorem unmatched_directive_errors :
    (∀ (ctx : Ctx) (bld : List (List Char) → List Char →
        Except BuildErr (List Char × List (List Char)))
      (line : List Char) (rest : List (List Char)) (acc : List Char)
      (visited : List (List Char)),
      ELSE.isPrefixOf (pyStrip line) = true →
      lineLoopF ctx bld (line :: rest) [] acc visited =
        .error .unmatchedElse) ∧
    (∀ (ctx : Ctx) (bld : List (List Char) → List Char →
        Except BuildErr (List Char × List (List Char)))
      (line : List Char) (rest : List (List Char)) (acc : List Char)
      (visited : List (List Char)),
      ENDIF.isPrefixOf (pyStrip line) = true →
      lineLoopF ctx bld (line :: rest) [] acc visited =
        .error .unmatchedEndif) ∧
    (∀ (ctx : Ctx) (bld : List (List Char) → List Char →
        Except BuildErr (List Char × List (List Char)))
      (line : List Char) (rest : List (List Char)) (stack : List Bool)
      (acc : List Char) (visited : List (List Char)),
      ELSE.isPrefixOf (pyStrip line) = true → stack ≠ [] →
      lineLoopF ctx bld (line :: rest) stack acc visited =
        lineLoopF ctx bld rest (elseStep stack) acc visited) ∧
    (∀ (ctx : Ctx) (bld : List (List Char) → List Char →
        Except BuildErr (List Char × List (List Char)))
      (line : List Char) (rest : List (List Char)) (stack : List Bool)
      (acc : List Char) (visited : List (List Char)),
      ENDIF.isPrefixOf (pyStrip line) = true → stack ≠ [] →
      lineLoopF ctx bld (line :: rest) stack acc visited =
        lineLoopF ctx bld rest stack.dropLast acc visited) := by
  refine ⟨fun ctx bld line rest acc visited h => ?_,
    fun ctx bld line rest acc visited h => ?_,
    fun ctx bld line rest stack acc visited h hs => ?_,
    fun ctx bld line rest stack acc visited h hs => ?_⟩
  · rw [lineLoopF_else_step ctx bld line rest [] acc visited h]; rfl
  · rw [lineLoopF_endif_step ctx bld line rest [] acc visited h]; rfl
  · rw [lineLoopF_else_step ctx bld line rest stack acc visited h]
    have : stack.isEmpty = false := by
      cases stack with
      | nil => exact absurd rfl hs
      | cons a as => rfl
    simp [this]
  · rw [lineLoopF_endif_step ctx bld line rest stack acc visited h]
    have : stack.isEmpty = false := by
      cases stack with
      | nil => exact absurd rfl hs
      | cons a as => rfl
    simp [this]

/-- C7 (witness): the dangling `#:else\n` line on an empty stack errors. -/
theorem unmatched_directive_errors_witness :
    lineLoopF ⟨id, [], []⟩ (fun v _ => .ok ([], v)) ["#:else\n".data] []
      [] [] = .error .unmatchedElse :=
  unmatched_directive_errors.1 ⟨id, [], []⟩ (fun v _ => .ok ([], v))
    "#:else\n".data [] [] [] rfl

/-- C8: repeated top-level builds are deterministic: `run_build` clears
the visited set before calling `build`, so whatever stale visited
contents two invocations start from, they return byte-identical results,
both equal to a fresh build. -/
theorem build_deterministic (ctx : Ctx) (fuel : Nat) (file : List Char)
    (stale1 stale2 : List (List Char)) :
    runBuild ctx fuel file stale1 = runBuild ctx fuel file stale2 ∧
    runBuild ctx fuel file stale1 = build ctx fuel [] file :=
  ⟨rfl, rfl⟩

/-- C9: a directive line with a missing argument escapes as an
`IndexError` from `split(maxsplit=1)[1]`: a line stripping to exactly
`#:if` always fails so (whatever the stack), a line stripping to exactly
`#:section` fails so when no frame is skipping, and this failure is a
distinct outcome from the four specified error kinds; concretely both
one-line files fail the build with it. -/
theorem bare_directive_index_error :
    (∀ (ctx : Ctx) (bld : List (List Char) → List Char →
        Except BuildErr (List Char × List (List Char)))
      (line : List Char) (rest : List (List Char)) (stack : List Bool)
      (acc : List Char) (visited : List (List Char)),
      pyStrip line = IF →
      lineLoopF ctx bld (line :: rest) stack acc visited =
        .error .indexErr) ∧
    (∀ (ctx : Ctx) (bld : List (List Char) → List Char →
        Except BuildErr (List Char × List (List Char)))
      (line : List Char) (rest : List (List Char)) (stack : List Bool)
      (acc : List Char) (visited : List (List Char)),
      pyStrip line = INCLUDE → stack.any id = false →
      lineLoopF ctx bld (line :: rest) stack acc visited =
        .error .indexErr) ∧
    (∀ p : List Char, BuildErr.indexErr ≠ .circular p ∧
      BuildErr.indexErr ≠ .missingFile p) ∧
    BuildErr.indexErr ≠ .unmatchedElse ∧
    BuildErr.indexErr ≠ .unmatchedEndif ∧
    buildRes ⟨id, [("a".data, "#:if\n".data)], []⟩ 1 "a".data =
      .error .indexErr ∧
    buildRes ⟨id, [("b".data, "#:section\n".data)], []⟩ 1 "b".data =
      .error .indexErr := by
  refine ⟨fun ctx bld line rest stack acc visited h => ?_,
    fun ctx bld line rest stack acc visited h hs => ?_,
    fun p => ⟨fun h => BuildErr.noConfusion h,
      fun h => BuildErr.noConfusion h⟩,
    fun h => BuildErr.noConfusion h, fun h => BuildErr.noConfusion h,
    rfl, rfl⟩
  · rw [lineLoopF_if_step ctx bld line rest stack acc visited
      (by rw [h]; rfl), h]
    rfl
  · rw [lineLoopF_include_step ctx bld line rest stack acc visited
      (by rw [h]; rfl) hs, h]
    rfl

/-- C9 (witness): the bare `#:if` line errors with the index failure on a
concrete non-empty stack. -/
theorem bare_directive_index_error_witness :
    lineLoopF ⟨id, [], []⟩ (fun v _ => .ok ([], v)) ["#:if\n".data]
      [true] [] [] = .error .indexErr :=
  bare_directive_index_error.1 ⟨id, [], []⟩ (fun v _ => .ok ([], v))
    "#:if\n".data [] [true] [] [] rfl

theorem collectLines_no_start (ls : List (List Char))
    (h : ∀ l ∈ ls, pyStrip l ≠ MANIFEST_START) :
    collectLines false ls = [] := by
  induction ls with
  | nil => rfl
  | cons l ls ih =>
    have h1 := h l (List.mem_cons_self l ls)
    by_cases h2 : pyStrip l = MANIFEST_END
    · simp only [collectLines, if_neg h1, if_pos h2]
    · simp only [collectLines, if_neg h1, if_neg h2, Bool.false_eq_true,
        if_false]
      exact ih fun x hx => h x (List.mem_cons_of_mem l hx)

/-- C4: `Manifest.parse` on the Example B input yields exactly the mapping
`{"shebang": "/usr/bin/env node", "artifact-name": "out.js"}` (first
conjunct); lines are split at the first colon with both halves trimmed
and later duplicate keys overwrite earlier ones (second conjunct: the
value `b:c` keeps its inner colon, ` k2 ` is trimmed, and `k` ends bound
to `v2`); a text none of whose lines strips to the start sentinel parses
to the empty mapping rather than an error (third conjunct). -/
theorem manifest_parse_behaviour :
    Manifest.parse
        "0o ---\nshebang: /usr/bin/env node\nartifact-name: out.js\n--- o0\ncode\n".data =
      [("shebang".data, "/usr/bin/env node".data),
       ("artifact-name".data, "out.js".data)] ∧
    Manifest.parse "0o ---\nk: v1\n k2 : b:c \nk: v2\n--- o0\n".data =
      [("k".data, "v2".data), ("k2".data, "b:c".data)] ∧
    (∀ t : List Char, (∀ l ∈ splitN t, pyStrip l ≠ MANIFEST_START) →
      Manifest.parse t = []) := by
  refine ⟨rfl, rfl, fun t h => ?_⟩
  unfold Manifest.parse
  rw [collectLines_no_start _ h]
  rfl

/-- C4 (witness): a two-line text without the start sentinel parses to the
empty mapping. -/
theorem manifest_parse_behaviour_witness :
    Manifest.parse "x\ny\n".data = [] :=
  manifest_parse_behaviour.2.2 "x\ny\n".data (by decide)

/-- C10: directive classification is by string prefix: any line whose
stripped form extends the `#:if` token is processed as an if-directive
testing the symbol extracted by `split(maxsplit=1)` (first conjunct), any
line whose stripped form extends `#:section` is processed as an include
of the extracted path (second conjunct); concretely `#:ifdef X` opens a
conditional on the symbol `X` and `#:sectionX inc` includes the file
`inc`. -/
theorem directive_prefix_classification :
    (∀ (ctx : Ctx) (bld : List (List Char) → List Char →
        Except BuildErr (List Char × List (List Char)))
      (line : List Char) (rest : List (List Char)) (stack : List Bool)
      (acc : List Char) (visited : List (List Char)) (u sym : List Char),
      pyStrip line = IF ++ u → splitMax1Snd (pyStrip line) = some sym →
      lineLoopF ctx bld (line :: rest) stack acc visited =
        lineLoopF ctx bld rest (stack ++ [!ctx.defines.contains sym])
          acc visited) ∧
    (∀ (ctx : Ctx) (bld : List (List Char) → List Char →
        Except BuildErr (List Char × List (List Char)))
      (line : List Char) (rest : List (List Char)) (stack : List Bool)
      (acc : List Char) (visited : List (List Char)) (u incPath : List Char),
      pyStrip line = INCLUDE ++ u → stack.any id = false →
      splitMax1Snd (pyStrip line) = some incPath →
      lineLoopF ctx bld (line :: rest) stack acc visited =
        (match bld visited incPath with
         | .error e => .error e
         | .ok (out, visited2) =>
           lineLoopF ctx bld rest stack (acc ++ out) visited2)) ∧
    buildRes ⟨id, [("a".data, "#:ifdef X\nhello\n#:endif\n".data)],
      ["X".data]⟩ 1 "a".data = .ok "hello\n".data ∧
    buildRes ⟨id, [("a".data, "#:ifdef X\nhello\n#:endif\n".data)], []⟩
      1 "a".data = .ok "".data ∧
    buildRes ⟨id, [("m".data, "#:sectionX inc\n".data),
      ("inc".data, "payload\n".data)], []⟩ 2 "m".data =
      .ok "payload\n".data := by
  refine ⟨fun ctx bld line rest stack acc visited u sym hu hsym => ?_,
    fun ctx bld line rest stack acc visited u incPath hu hs hsym => ?_,
    rfl, rfl, rfl⟩
  · rw [lineLoopF_if_step ctx bld line rest stack acc visited
      (by rw [hu]; exact if_pf_if u), hsym]
  · rw [lineLoopF_include_step ctx bld line rest stack acc visited
      (by rw [hu]; exact include_pf_include u) hs, hsym]

/-- C10 (witness): the `#:ifdef X` line with `X` defined pushes a
non-skipping frame, i.e. the loop finishes with the same output as the
instantiated right-hand side. -/
theorem directive_prefix_classification_witness :
    lineLoopF ⟨id, [], ["X".data]⟩ (fun v _ => .ok ([], v))
      ["#:ifdef X\n".data] [] [] [] = .ok ([], []) :=
  directive_prefix_classification.1 ⟨id, [], ["X".data]⟩
    (fun v _ => .ok ([], v)) "#:ifdef X\n".data [] [] [] []
    "def X".data "X".data rfl rfl

theorem lineLoopF_plain (ctx : Ctx)
    (bld : List (List Char) → List Char →
      Except BuildErr (List Char × List (List Char)))
    (ls rest : List (List Char)) (stack : List Bool)
    (acc : List Char) (visited : List (List Char))
    (h : ∀ l ∈ ls, isDirective l = false) :
    lineLoopF ctx bld (ls ++ rest) stack acc visited =
      lineLoopF ctx bld rest stack
        (if stack.any id then acc else acc ++ ls.flatten) visited := by
  induction ls generalizing acc with
  | nil => simp
  | cons l ls ih =>
    have hl := h l (List.mem_cons_self l ls)
    simp only [isDirective, Bool.or_eq_false_iff] at hl
    obtain ⟨⟨⟨h1, h2⟩, h3⟩, h4⟩ := hl
    have ih' := fun a => ih a (fun x hx => h x (List.mem_cons_of_mem l hx))
    simp only [List.cons_append, lineLoopF, h1, h2, h3, h4,
      Bool.false_eq_true, if_false, List.append_eq]
    cases hstack : stack.any id with
    | true => simp only [if_true]; rw [ih' acc, if_pos hstack]
    | false =>
      simp only [Bool.false_eq_true, if_false]
      rw [ih' (acc ++ l), if_neg (by rw [hstack]; exact Bool.false_ne_true),
        List.flatten_cons, ← List.append_assoc]

/-- C2: for a well-nested `if/else/endif` region processed from an empty
stack, the loop returns the accumulated output extended with exactly one
of the two branches' lines, chosen by membership of the tested symbol in
the defined-symbol set, with all four directive lines absent (first
conjunct, for arbitrary directive-free branch bodies); concretely,
building the five-line file of Example A with `DEBUG` defined yields
exactly `debug_line\n` (second conjunct). -/
theorem conditional_region (ctx : Ctx)
    (bld : List (List Char) → List Char →
      Except BuildErr (List Char × List (List Char)))
    (ifLine elseLine endifLine : List Char) (A B : List (List Char))
    (sym acc : List Char) (visited : List (List Char))
    (hif : IF.isPrefixOf (pyStrip ifLine) = true)
    (hsym : splitMax1Snd (pyStrip ifLine) = some sym)
    (helse : ELSE.isPrefixOf (pyStrip elseLine) = true)
    (hend : ENDIF.isPrefixOf (pyStrip endifLine) = true)
    (hA : ∀ l ∈ A, isDirective l = false)
    (hB : ∀ l ∈ B, isDirective l = false) :
    lineLoopF ctx bld (ifLine :: (A ++ elseLine :: (B ++ [endifLine])))
        [] acc visited =
      .ok (acc ++ (if ctx.defines.contains sym then A.flatten
        else B.flatten), visited) ∧
    buildRes ⟨id, [("a".data,
      "#:if DEBUG\ndebug_line\n#:else\nrelease_line\n#:endif\n".data)],
      ["DEBUG".data]⟩ 1 "a".data = .ok "debug_line\n".data := by
  refine ⟨?_, rfl⟩
  rw [lineLoopF_if_step ctx bld ifLine _ [] acc visited hif, hsym]
  cases hc : ctx.defines.contains sym with
  | true =>
    simp only [hc, Bool.not_true, List.nil_append, if_true]
    rw [lineLoopF_plain ctx bld A _ [false] acc visited hA]
    simp only [show ([false].any id) = false from rfl, Bool.false_eq_true,
      if_false]
    rw [lineLoopF_else_step ctx bld elseLine _ [false] _ visited helse]
    simp only [show ([false] : List Bool).isEmpty = false from rfl,
      Bool.false_eq_true, if_false,
      show elseStep [false] = [true] from rfl]
    rw [lineLoopF_plain ctx bld B [endifLine] [true] _ visited hB]
    simp only [show ([true].any id) = true from rfl, if_true]
    rw [lineLoopF_endif_step ctx bld endifLine [] [true] _ visited hend]
    rfl
  | false =>
    simp only [hc, Bool.not_false, List.nil_append, Bool.false_eq_true,
      if_false]
    rw [lineLoopF_plain ctx bld A _ [true] acc visited hA]
    simp only [show ([true].any id) = true from rfl, if_true]
    rw [lineLoopF_else_step ctx bld elseLine _ [true] _ visited helse]
    simp only [show ([true] : List Bool).isEmpty = false from rfl,
      Bool.false_eq_true, if_false,
      show elseStep [true] = [false] from rfl]
    rw [lineLoopF_plain ctx bld B [endifLine] [false] _ visited hB]
    simp only [show ([false].any id) = false from rfl, Bool.false_eq_true,
      if_false]
    rw [lineLoopF_endif_step ctx bld endifLine [] [false] _ visited hend]
    rfl

/-- C2 (witness): the general region theorem applied to Example A's five
lines with `DEBUG` defined. -/
theorem conditional_region_witness :
    lineLoopF ⟨id, [], ["DEBUG".data]⟩ (fun v _ => .ok ([], v))
        ["#:if DEBUG\n".data, "debug_line\n".data, "#:else\n".data,
         "release_line\n".data, "#:endif\n".data] [] [] [] =
      .ok ("debug_line\n".data, []) ∧
    buildRes ⟨id, [("a".data,
      "#:if DEBUG\ndebug_line\n#:else\nrelease_line\n#:endif\n".data)],
      ["DEBUG".data]⟩ 1 "a".data = .ok "debug_line\n".data :=
  conditional_region ⟨id, [], ["DEBUG".data]⟩ (fun v _ => .ok ([], v))
    "#:if DEBUG\n".data "#:else\n".data "#:endif\n".data
    ["debug_line\n".data] ["release_line\n".data] "DEBUG".data [] []
    rfl rfl rfl rfl (by decide) (by decide)

/-! ### Line-structure lemmas for strip idempotence -/

theorem brk_ne_cr {c : Char} (h : isLineBreak c = false) : ¬(c = '\r') := by
  intro e
  subst e
  exact absurd h (by decide)

theorem splitK_nonbrk_cons (c : Char) (rest : List Char)
    (h : isLineBreak c = false) :
    splitK (c :: rest) =
      match splitK rest with
      | [] => [c] :: []
      | l :: ls => (c :: l) :: ls := by
  cases rest with
  | nil =>
    rw [splitK.eq_3, if_neg (brk_ne_cr h)]
    simp only [h, Bool.false_eq_true, if_false]
  | cons c2 r2 =>
    by_cases e : c2 = '\n'
    · subst e
      rw [splitK.eq_2, if_neg (brk_ne_cr h)]
      simp only [h, Bool.false_eq_true, if_false]
    · rw [splitK.eq_4 c c2 r2 (fun x => e x), if_neg (brk_ne_cr h)]
      simp only [h, Bool.false_eq_true, if_false]

theorem splitK_term_cons (t : Char) (rest : List Char)
    (ht : isLineBreak t = true) (hcr : ¬(t = '\r')) :
    splitK (t :: rest) = [t] :: splitK rest := by
  cases rest with
  | nil =>
    rw [splitK.eq_3, if_neg hcr]
    simp only [ht, if_true]
  | cons c2 r2 =>
    by_cases e : c2 = '\n'
    · subst e
      rw [splitK.eq_2, if_neg hcr]
      simp only [ht, if_true]
    · rw [splitK.eq_4 t c2 r2 (fun x => e x), if_neg hcr]
      simp only [ht, if_true]

theorem splitK_crlf_cons (rest : List Char) :
    splitK ('\r' :: '\n' :: rest) = ['\r', '\n'] :: splitK rest := rfl

theorem splitK_cr_cons (rest : List Char) (h : rest.head? ≠ some '\n') :
    splitK ('\r' :: rest) = ['\r'] :: splitK rest := by
  cases rest with
  | nil => rfl
  | cons c2 r2 =>
    have hc2 : ¬(c2 = '\n') := fun e => h (by rw [e]; rfl)
    rw [splitK.eq_4 '\r' c2 r2 (fun e => hc2 e), if_pos rfl]

theorem noBrk_cons {c : Char} {b : List Char} (hc : isLineBreak c = false)
    (hb : noBrk b) : noBrk (c :: b) := by
  intro x hx
  rcases List.mem_cons.mp hx with rfl | hx
  · exact hc
  · exact hb x hx

theorem noBrk_of_cons {c : Char} {b : List Char} (h : noBrk (c :: b)) :
    isLineBreak c = false ∧ noBrk b :=
  ⟨h c (List.mem_cons_self c b), fun x hx => h x (List.mem_cons_of_mem c hx)⟩

theorem splitK_line_term (b : List Char) (t : Char) (rest : List Char)
    (hb : noBrk b) (ht : isLineBreak t = true) (hcr : ¬(t = '\r')) :
    splitK (b ++ t :: rest) = (b ++ [t]) :: splitK rest := by
  induction b with
  | nil => simpa using splitK_term_cons t rest ht hcr
  | cons c b ih =>
    obtain ⟨hc, hb'⟩ := noBrk_of_cons hb
    rw [List.cons_append, splitK_nonbrk_cons c _ hc, ih hb']
    rfl

theorem splitK_line_crlf (b : List Char) (rest : List Char) (hb : noBrk b) :
    splitK (b ++ '\r' :: '\n' :: rest) = (b ++ ['\r', '\n']) :: splitK rest := by
  induction b with
  | nil => simpa using splitK_crlf_cons rest
  | cons c b ih =>
    obtain ⟨hc, hb'⟩ := noBrk_of_cons hb
    rw [List.cons_append, splitK_nonbrk_cons c _ hc, ih hb']
    rfl

theorem splitK_line_cr (b : List Char) (rest : List Char) (hb : noBrk b)
    (h : rest.head? ≠ some '\n') :
    splitK (b ++ '\r' :: rest) = (b ++ ['\r']) :: splitK rest := by
  induction b with
  | nil => simpa using splitK_cr_cons rest h
  | cons c b ih =>
    obtain ⟨hc, hb'⟩ := noBrk_of_cons hb
    rw [List.cons_append, splitK_nonbrk_cons c _ hc, ih hb']
    rfl

theorem splitK_body (b : List Char) (hb : noBrk b) (hne : b ≠ []) :
    splitK b = [b] := by
  induction b with
  | nil => exact absurd rfl hne
  | cons c b ih =>
    obtain ⟨hc, hb'⟩ := noBrk_of_cons hb
    rw [splitK_nonbrk_cons c b hc]
    cases b with
    | nil => rfl
    | cons c2 b2 => rw [ih hb' (by simp)]

theorem flatten_splitK (s : List Char) : (splitK s).flatten = s := by
  induction s using splitK.induct with
  | case1 => rfl
  | case2 rest2 ih =>
    rw [splitK_crlf_cons, List.flatten_cons, ih]
    rfl
  | case3 => rfl
  | case4 c2 rest2 hne ih =>
    rw [splitK_cr_cons _
        (show (c2 :: rest2).head? ≠ some '\n' from
          fun hh => hne (Option.some.inj hh)),
      List.flatten_cons, ih]
    rfl
  | case5 c rest hcr hbrk ih =>
    rw [splitK_term_cons c rest hbrk hcr, List.flatten_cons, ih]
    rfl
  | case6 c rest hcr hbrk hsp ih =>
    rw [splitK_nonbrk_cons c rest (Bool.not_eq_true _ ▸ hbrk), hsp]
    have : rest = [] := by rw [← ih, hsp]; rfl
    subst this
    rfl
  | case7 c rest hcr hbrk l ls hsp ih =>
    rw [splitK_nonbrk_cons c rest (Bool.not_eq_true _ ▸ hbrk), hsp]
    rw [hsp] at ih
    rw [List.flatten_cons] at ih ⊢
    rw [List.cons_append, ih]

theorem termLine_ne_nil {l : List Char} (h : TermLine l) : l ≠ [] := by
  rcases h with ⟨b, t, rfl, -, -⟩ | ⟨b, rfl, -⟩ <;> simp

theorem isLine_ne_nil {l : List Char} (h : IsLine l) : l ≠ [] := by
  rcases h with h | ⟨-, hne⟩
  · exact termLine_ne_nil h
  · exact hne

theorem termLine_cons {c : Char} {l : List Char} (hc : isLineBreak c = false)
    (h : TermLine l) : TermLine (c :: l) := by
  rcases h with ⟨b, t, rfl, hb, ht⟩ | ⟨b, rfl, hb⟩
  · exact .inl ⟨c :: b, t, rfl, noBrk_cons hc hb, ht⟩
  · exact .inr ⟨c :: b, rfl, noBrk_cons hc hb⟩

theorem isLine_cons {c : Char} {l : List Char} (hc : isLineBreak c = false)
    (h : IsLine l) : IsLine (c :: l) := by
  rcases h with h | ⟨hb, -⟩
  · exact .inl (termLine_cons hc h)
  · exact .inr ⟨noBrk_cons hc hb, by simp⟩

theorem goodList_cons_term {l : List Char} {ls : List (List Char)}
    (hl : TermLine l) (hls : GoodList ls) : GoodList (l :: ls) := by
  cases ls with
  | nil => exact Or.inl hl
  | cons l2 ls2 => exact ⟨hl, hls⟩

theorem goodList_head {y : List Char} {ys : List (List Char)}
    (h : GoodList (y :: ys)) : IsLine y := by
  cases ys with
  | nil => exact h
  | cons z zs => exact Or.inl h.1

theorem goodList_tail {y : List Char} {ys : List (List Char)}
    (h : GoodList (y :: ys)) : GoodList ys := by
  cases ys with
  | nil => trivial
  | cons z zs => exact h.2

theorem goodList_splitK (s : List Char) : GoodList (splitK s) := by
  induction s using splitK.induct with
  | case1 => trivial
  | case2 rest2 ih =>
    rw [splitK_crlf_cons]
    exact goodList_cons_term (.inr ⟨[], rfl, fun x hx => by simp at hx⟩) ih
  | case3 =>
    exact Or.inl (.inl ⟨[], '\r', rfl, fun x hx => by simp at hx, by decide⟩)
  | case4 c2 rest2 hne ih =>
    rw [splitK_cr_cons _
      (show (c2 :: rest2).head? ≠ some '\n' from
        fun hh => hne (Option.some.inj hh))]
    exact goodList_cons_term
      (.inl ⟨[], '\r', rfl, fun x hx => by simp at hx, by decide⟩) ih
  | case5 c rest hcr hbrk ih =>
    rw [splitK_term_cons c rest hbrk hcr]
    exact goodList_cons_term
      (.inl ⟨[], c, rfl, fun x hx => by simp at hx, hbrk⟩) ih
  | case6 c rest hcr hbrk hsp ih =>
    rw [splitK_nonbrk_cons c rest (Bool.not_eq_true _ ▸ hbrk), hsp]
    exact Or.inr ⟨noBrk_cons (Bool.not_eq_true _ ▸ hbrk)
      (fun x hx => by simp at hx), by simp⟩
  | case7 c rest hcr hbrk l ls hsp ih =>
    rw [splitK_nonbrk_cons c rest (Bool.not_eq_true _ ▸ hbrk), hsp]
    rw [hsp] at ih
    have hc : isLineBreak c = false := Bool.not_eq_true _ ▸ hbrk
    cases ls with
    | nil => exact isLine_cons hc (goodList_head ih)
    | cons l2 ls2 => exact ⟨termLine_cons hc ih.1, ih.2⟩

theorem keep_stripLines (inside : Bool) (ls : List (List Char)) :
    ∀ l ∈ stripLines inside ls, Keep l := by
  induction ls generalizing inside with
  | nil => intro l hl; simp [stripLines] at hl
  | cons x xs ih =>
    intro l hl
    simp only [stripLines] at hl
    by_cases h1 : pyStrip x = MANIFEST_START
    · rw [if_pos h1] at hl; exact ih true l hl
    · rw [if_neg h1] at hl
      by_cases h2 : pyStrip x = MANIFEST_END
      · rw [if_pos h2] at hl; exact ih false l hl
      · rw [if_neg h2] at hl
        cases inside with
        | true => rw [if_pos rfl] at hl; exact ih true l hl
        | false =>
          rw [if_neg (by exact Bool.false_ne_true)] at hl
          rcases List.mem_cons.mp hl with rfl | hl
          · exact ⟨h1, h2⟩
          · exact ih false l hl

theorem stripLines_keep_all (ls : List (List Char))
    (h : ∀ l ∈ ls, Keep l) : stripLines false ls = ls := by
  induction ls with
  | nil => rfl
  | cons x xs ih =>
    obtain ⟨h1, h2⟩ := h x (List.mem_cons_self x xs)
    simp only [stripLines, if_neg h1, if_neg h2, Bool.false_eq_true,
      if_false]
    rw [ih (fun l hl => h l (List.mem_cons_of_mem x hl))]

theorem goodList_stripLines (inside : Bool) (ls : List (List Char))
    (hg : GoodList ls) : GoodList (stripLines inside ls) := by
  induction ls generalizing inside with
  | nil => trivial
  | cons x xs ih =>
    cases xs with
    | nil =>
      simp only [stripLines]
      by_cases h1 : pyStrip x = MANIFEST_START
      · rw [if_pos h1]; trivial
      · rw [if_neg h1]
        by_cases h2 : pyStrip x = MANIFEST_END
        · rw [if_pos h2]; trivial
        · rw [if_neg h2]
          cases inside with
          | true => rw [if_pos rfl]; trivial
          | false => rw [if_neg (by exact Bool.false_ne_true)]; exact hg
    | cons y ys =>
      obtain ⟨hterm, hg2⟩ := hg
      simp only [stripLines]
      by_cases h1 : pyStrip x = MANIFEST_START
      · rw [if_pos h1]; exact ih true hg2
      · rw [if_neg h1]
        by_cases h2 : pyStrip x = MANIFEST_END
        · rw [if_pos h2]; exact ih false hg2
        · rw [if_neg h2]
          cases inside with
          | true => rw [if_pos rfl]; exact ih true hg2
          | false =>
            rw [if_neg (by exact Bool.false_ne_true)]
            exact goodList_cons_term hterm (ih false hg2)

theorem pyStrip_append_space (x : List Char) (c : Char)
    (hc : pyIsSpace c = true) : pyStrip (x ++ [c]) = pyStrip x := by
  unfold pyStrip
  rw [List.dropWhile_append]
  by_cases he : (x.dropWhile pyIsSpace).isEmpty = true
  · rw [if_pos he]
    have h1 : List.dropWhile pyIsSpace [c] = [] := by
      rw [List.dropWhile_cons_of_pos hc]; rfl
    have h2 : x.dropWhile pyIsSpace = [] := by
      cases hx : x.dropWhile pyIsSpace with
      | nil => rfl
      | cons a as => rw [hx] at he; simp at he
    rw [h1, h2]
  · rw [if_neg he, List.reverse_append]
    simp only [List.reverse_cons, List.reverse_nil, List.nil_append,
      List.singleton_append]
    rw [List.dropWhile_cons_of_pos hc]

theorem keep_append_nl {l : List Char} (h : Keep l) : Keep (l ++ ['\n']) := by
  obtain ⟨h1, h2⟩ := h
  rw [Keep, pyStrip_append_space l '\n' (by decide)]
  exact ⟨h1, h2⟩

theorem line_starting_nl {as : List Char} (h : IsLine ('\n' :: as)) :
    as = [] := by
  rcases h with h | ⟨hb, -⟩
  · rcases h with ⟨b, t, heq, hb, ht⟩ | ⟨b, heq, hb⟩
    · cases b with
      | nil =>
        rw [List.nil_append] at heq
        exact (List.cons.injEq .. ▸ heq).2
      | cons c bb =>
        rw [List.cons_append] at heq
        have hcn : c = '\n' := ((List.cons.injEq .. ▸ heq).1).symm
        have := hb c (List.mem_cons_self c bb)
        rw [hcn] at this
        exact absurd this (by decide)
    · cases b with
      | nil =>
        rw [List.nil_append] at heq
        exact absurd ((List.cons.injEq .. ▸ heq).1) (by decide)
      | cons c bb =>
        rw [List.cons_append] at heq
        have hcn : c = '\n' := ((List.cons.injEq .. ▸ heq).1).symm
        have := hb c (List.mem_cons_self c bb)
        rw [hcn] at this
        exact absurd this (by decide)
  · have := hb '\n' (List.mem_cons_self ..)
    exact absurd this (by decide)

theorem keep_resplit : ∀ (n : Nat) (ls : List (List Char)), ls.length ≤ n →
    GoodList ls → (∀ l ∈ ls, Keep l) → ∀ x ∈ splitK ls.flatten, Keep x := by
  intro n
  induction n with
  | zero =>
    intro ls hlen _ _ x hx
    have hnil : ls = [] := List.length_eq_zero.mp (Nat.le_zero.mp hlen)
    subst hnil
    simp [splitK] at hx
  | succ n ih =>
    intro ls hlen hg hk x hx
    cases ls with
    | nil => simp [splitK] at hx
    | cons l ls2 =>
      have hkl : Keep l := hk l (List.mem_cons_self ..)
      cases ls2 with
      | nil =>
        rw [List.flatten_cons, List.flatten_nil, List.append_nil] at hx
        have hil : IsLine l := hg
        have hsk : splitK l = [l] := by
          rcases hil with hterm | ⟨hb, hne⟩
          · rcases hterm with ⟨b, t, rfl, hb, ht⟩ | ⟨b, rfl, hb⟩
            · by_cases hcr : t = '\r'
              · subst hcr
                simpa [splitK] using splitK_line_cr b [] hb (by simp)
              · simpa [splitK] using splitK_line_term b t [] hb ht hcr
            · simpa [splitK] using splitK_line_crlf b [] hb
          · exact splitK_body l hb hne
        rw [hsk] at hx
        have := List.mem_singleton.mp hx
        subst this
        exact hkl
      | cons l2 ls3 =>
        have hterm : TermLine l := hg.1
        have hg2 : GoodList (l2 :: ls3) := hg.2
        have hk2 : ∀ y ∈ l2 :: ls3, Keep y :=
          fun y hy => hk y (List.mem_cons_of_mem _ hy)
        have hlen2 : (l2 :: ls3).length ≤ n := by
          simp only [List.length_cons] at hlen ⊢
          omega
        rw [List.flatten_cons] at hx
        rcases hterm with ⟨b, t, rfl, hb, ht⟩ | ⟨b, rfl, hb⟩
        · by_cases hcr : t = '\r'
          · subst hcr
            have hl2 : IsLine l2 := goodList_head hg2
            cases l2 with
            | nil => exact absurd rfl (isLine_ne_nil hl2)
            | cons a as =>
              by_cases ha : a = '\n'
              · subst ha
                have has : as = [] := line_starting_nl hl2
                subst has
                simp only [List.flatten_cons, List.append_assoc,
                  List.singleton_append, List.cons_append,
                  List.nil_append] at hx
                rw [splitK_line_crlf b ls3.flatten hb] at hx
                rcases List.mem_cons.mp hx with rfl | hx
                · have h2 := keep_append_nl hkl
                  rwa [List.append_assoc] at h2
                · exact ih ls3
                    (by simp only [List.length_cons] at hlen; omega)
                    (goodList_tail hg2)
                    (fun y hy => hk2 y (List.mem_cons_of_mem _ hy)) x hx
              · have hhead : (a :: (as ++ ls3.flatten)).head? ≠ some '\n' :=
                  fun hh => ha (Option.some.inj hh)
                simp only [List.flatten_cons, List.append_assoc,
                  List.singleton_append, List.cons_append,
                  List.nil_append] at hx
                rw [splitK_line_cr b (a :: (as ++ ls3.flatten)) hb hhead]
                  at hx
                rcases List.mem_cons.mp hx with rfl | hx
                · exact hkl
                · exact ih ((a :: as) :: ls3) hlen2 hg2 hk2 x hx
          · simp only [List.flatten_cons, List.append_assoc,
              List.singleton_append] at hx
            rw [splitK_line_term b t (l2 ++ ls3.flatten) hb ht hcr] at hx
            rcases List.mem_cons.mp hx with rfl | hx
            · exact hkl
            · exact ih (l2 :: ls3) hlen2 hg2 hk2 x hx
        · simp only [List.flatten_cons, List.append_assoc,
            List.singleton_append, List.cons_append, List.nil_append] at hx
          rw [splitK_line_crlf b (l2 ++ ls3.flatten) hb] at hx
          rcases List.mem_cons.mp hx with rfl | hx
          · exact hkl
          · exact ih (l2 :: ls3) hlen2 hg2 hk2 x hx

/-- C5: manifest stripping is idempotent: for every text `t`,
`strip_manifest (strip_manifest t) = strip_manifest t`.  The first pass
keeps exactly the non-manifest lines, verbatim with their original
terminators and order; re-splitting the kept text yields lines whose
stripped forms are never a sentinel (even across the CR/LF re-joining
boundary case), so a second pass keeps everything. -/
theorem strip_manifest_idempotent (t : List Char) :
    strip_manifest (strip_manifest t) = strip_manifest t := by
  unfold strip_manifest
  rw [stripLines_keep_all _ (keep_resplit
      (stripLines false (splitK t)).length _ le_rfl
      (goodList_stripLines false (splitK t) (goodList_splitK t))
      (keep_stripLines false (splitK t))),
    flatten_splitK]

end Obun
